import Mathlib

/-!
Verification of the reactive state-tree engine in `src/lib/state/tree.js` (redurx).

The JavaScript source is an RxJS-4 dataflow program.  We embed it shallowly:

* plain objects whose keys matter (`children` registries, new-state objects) become
  association lists `List (String × α)` kept in JavaScript insertion order;
* leaf values are an opaque type `V` with decidable equality (RxJS 4's default
  `distinctUntilChanged` comparer is structural equality);
* each Rx subject/stream becomes either a pure function of the pushed values
  (leaf publish logs, replay views) or a step of an explicit event machine
  (`BranchState` / `branchStep`) that mirrors, event by event, what the
  subscriptions set up in `createInitialTree` do: the `createChildrenObservable`
  selector, the `createTreeSetNextState` subscription body, the
  `createTreeObservable` two-stage combine and the `pausable(pauser)` gate.
-/

namespace Redurx

/-- Errors raised by the helpers of `src/lib/errors` used in `tree.js`
(`throwShapeError`, `throwFinalizedError`) plus the inline
`new Error('Tried to create leaf node when provisional has children')` thrown by
`createLeaf`; the spec names the latter `ShapeConflictError`. -/
inductive TreeError where
  | shapeError : TreeError
  | alreadyFinalized : String → TreeError
  | shapeConflict : TreeError
deriving DecidableEq

/-- Association-list lookup, modelling JavaScript property access `acc[key]` and the
`key in newState` test on a plain object. -/
def lookupKey {α : Type} : List (String × α) → String → Option α
  | [], _ => none
  | (k, v) :: rest, key => if k = key then some v else lookupKey rest key

/-- Association-list update, modelling `Object.assign({}, acc, { [key]: node })`:
an existing key keeps its position and receives the new value, a fresh key is
appended (JavaScript insertion order for string keys). -/
def setKey {α : Type} : List (String × α) → String → α → List (String × α)
  | [], key, v => [(key, v)]
  | (k, w) :: rest, key, v =>
    if k = key then (key, v) :: rest else (k, w) :: setKey rest key v

/-- Key list of a plain object in iteration order, modelling `Object.keys`. -/
def keysOf {α : Type} (l : List (String × α)) : List String := l.map Prod.fst

theorem keysOf_nil {α : Type} : keysOf ([] : List (String × α)) = [] := rfl

theorem keysOf_cons {α : Type} (k : String) (w : α) (tl : List (String × α)) :
    keysOf ((k, w) :: tl) = k :: keysOf tl := rfl

theorem lookupKey_setKey_self {α : Type} (l : List (String × α)) (k : String) (v : α) :
    lookupKey (setKey l k v) k = some v := by
  induction l with
  | nil => simp [setKey, lookupKey]
  | cons hd tl ih =>
    obtain ⟨k0, w⟩ := hd
    by_cases h : k0 = k
    · simp [setKey, h, lookupKey]
    · simp [setKey, h, lookupKey, ih]

theorem lookupKey_setKey_ne {α : Type} (l : List (String × α)) (k k2 : String) (v : α)
    (h : k ≠ k2) : lookupKey (setKey l k v) k2 = lookupKey l k2 := by
  induction l with
  | nil => simp [setKey, lookupKey, h]
  | cons hd tl ih =>
    obtain ⟨k0, w⟩ := hd
    by_cases h0 : k0 = k
    · subst h0
      simp [setKey, lookupKey, h]
    · simp [setKey, h0, lookupKey, ih]

theorem keysOf_setKey_mem {α : Type} (l : List (String × α)) (k : String) (v : α)
    (h : k ∈ keysOf l) : keysOf (setKey l k v) = keysOf l := by
  induction l with
  | nil => cases h
  | cons hd tl ih =>
    obtain ⟨k0, w⟩ := hd
    by_cases h0 : k0 = k
    · simp [setKey, h0, keysOf_cons]
    · have hmem : k ∈ keysOf tl := by
        rw [keysOf_cons] at h
        rcases List.mem_cons.mp h with h1 | h1
        · exact absurd h1.symm h0
        · exact h1
      rw [show setKey ((k0, w) :: tl) k v = (k0, w) :: setKey tl k v from by
        simp [setKey, h0]]
      rw [keysOf_cons, keysOf_cons, ih hmem]

theorem keysOf_setKey_not_mem {α : Type} (l : List (String × α)) (k : String) (v : α)
    (h : k ∉ keysOf l) : keysOf (setKey l k v) = keysOf l ++ [k] := by
  induction l with
  | nil => simp [setKey, keysOf]
  | cons hd tl ih =>
    obtain ⟨k0, w⟩ := hd
    have h0 : k0 ≠ k := by
      intro hk; exact h (by rw [keysOf_cons, hk]; exact List.mem_cons_self k (keysOf tl))
    have htl : k ∉ keysOf tl := by
      intro hk; exact h (by rw [keysOf_cons]; exact List.mem_cons_of_mem k0 hk)
    rw [show setKey ((k0, w) :: tl) k v = (k0, w) :: setKey tl k v from by
      simp [setKey, h0]]
    rw [keysOf_cons, keysOf_cons, ih htl, List.cons_append]

theorem nodup_keysOf_setKey {α : Type} (l : List (String × α)) (k : String) (v : α)
    (h : (keysOf l).Nodup) : (keysOf (setKey l k v)).Nodup := by
  by_cases hmem : k ∈ keysOf l
  · rw [keysOf_setKey_mem l k v hmem]; exact h
  · rw [keysOf_setKey_not_mem l k v hmem]
    rw [List.nodup_append]
    refine ⟨h, List.nodup_singleton k, ?_⟩
    intro x hx hxk
    rw [List.mem_singleton] at hxk
    exact hmem (hxk ▸ hx)

theorem lookupKey_eq_none_iff {α : Type} (l : List (String × α)) (k : String) :
    lookupKey l k = none ↔ k ∉ keysOf l := by
  induction l with
  | nil => simp [lookupKey, keysOf]
  | cons hd tl ih =>
    obtain ⟨k0, w⟩ := hd
    by_cases h0 : k0 = k
    · subst h0
      simp [lookupKey, keysOf_cons]
    · rw [show lookupKey ((k0, w) :: tl) k = lookupKey tl k from by simp [lookupKey, h0]]
      rw [ih, keysOf_cons]
      constructor
      · intro hn hc
        rcases List.mem_cons.mp hc with hc | hc
        · exact h0 hc.symm
        · exact hn hc
      · intro hn hc
        exact hn (List.mem_cons_of_mem k0 hc)

theorem lookupKey_mem {α : Type} (l : List (String × α)) (k : String) (c : α)
    (h : lookupKey l k = some c) : (k, c) ∈ l := by
  induction l with
  | nil => simp [lookupKey] at h
  | cons hd tl ih =>
    obtain ⟨k0, w⟩ := hd
    by_cases h0 : k0 = k
    · subst h0
      simp [lookupKey] at h
      simp [h]
    · simp [lookupKey, h0] at h
      exact List.mem_cons_of_mem _ (ih h)

theorem mem_lookupKey_of_nodup {α : Type} (l : List (String × α)) (k : String) (c : α)
    (hnd : (keysOf l).Nodup) (h : (k, c) ∈ l) : lookupKey l k = some c := by
  induction l with
  | nil => cases h
  | cons hd tl ih =>
    obtain ⟨k0, w⟩ := hd
    rw [keysOf_cons, List.nodup_cons] at hnd
    rcases List.mem_cons.mp h with h1 | h1
    · rw [Prod.mk.injEq] at h1
      obtain ⟨hk, hc⟩ := h1
      subst hk
      subst hc
      simp [lookupKey]
    · have hk0 : k0 ≠ k := by
        intro he
        subst he
        exact hnd.1 (List.mem_map_of_mem Prod.fst h1)
      rw [show lookupKey ((k0, w) :: tl) k = lookupKey tl k from by simp [lookupKey, hk0]]
      exact ih hnd.2 h1

/-! ### Leaf node value stream (`createLeaf`, tree.js lines 180-214)

A leaf wraps `new Rx.BehaviorSubject(initialState)`; its outward observable is
`subject.distinctUntilChanged()` and `setNextState` pushes into the subject.  The
publish log seen by a subscriber is therefore the pushed sequence with consecutive
structural duplicates collapsed. -/

/-- Consecutive-duplicate suppression relative to the last published value,
modelling `distinctUntilChanged()` (RxJS 4 compares with structural equality). -/
def dedupFrom {V : Type} [DecidableEq V] (prev : V) : List V → List V
  | [] => []
  | x :: xs => if x = prev then dedupFrom prev xs else x :: dedupFrom x xs

/-- Publish log of a leaf created with `initialState` after the given sequence of
`setNextState` pushes: the `BehaviorSubject` emits the initial value at once, then
each push passes through `distinctUntilChanged`. -/
def leafPublishes {V : Type} [DecidableEq V] (initialState : V) (pushes : List V) : List V :=
  initialState :: dedupFrom initialState pushes

/-- Current value held by the leaf's `BehaviorSubject` after the given pushes. -/
def currentValue {V : Type} (initialState : V) (pushes : List V) : V :=
  pushes.getLastD initialState

/-- Stream seen by a subscriber who subscribes to the leaf's observable after the
pushes in `before` and before those in `after`: the `BehaviorSubject` re-emits its
current value to the new subscription and `distinctUntilChanged` keeps per-subscription
state, so the view is the current value followed by the deduplicated later pushes. -/
def leafSubscriberView {V : Type} [DecidableEq V] (initialState : V)
    (before af : List V) : List V :=
  currentValue initialState before :: dedupFrom (currentValue initialState before) af

/-- Stream seen by a subscriber of a branch node's value stream
(`valueSubject = new Rx.ReplaySubject(1)` in `createInitialTree`, exposed through
`valueSubject.asObservable()`): the latest already-published value, if any, is
replayed at subscription time, then later publishes arrive in order. -/
def replay1View {V : Type} (history future : List V) : List V :=
  history.getLast?.toList ++ future

theorem dedupFrom_cons_self {V : Type} [DecidableEq V] (p : V) (xs : List V) :
    dedupFrom p (p :: xs) = dedupFrom p xs := by
  simp [dedupFrom]

theorem dedupFrom_cons_ne {V : Type} [DecidableEq V] (p x : V) (xs : List V)
    (h : x ≠ p) : dedupFrom p (x :: xs) = x :: dedupFrom x xs := by
  simp [dedupFrom, h]

theorem dedupFrom_single {V : Type} [DecidableEq V] (p v : V) :
    dedupFrom p [v] = if v = p then [] else [v] := by
  by_cases h : v = p <;> simp [dedupFrom, h]

theorem dedupFrom_pair {V : Type} [DecidableEq V] (p v : V) :
    dedupFrom p [v, v] = dedupFrom p [v] := by
  by_cases h : v = p <;> simp [dedupFrom, h]

theorem dedupFrom_append {V : Type} [DecidableEq V] (xs : List V) :
    ∀ (p : V) (ys : List V),
      dedupFrom p (xs ++ ys) = dedupFrom p xs ++ dedupFrom (xs.getLastD p) ys := by
  induction xs with
  | nil => intro p ys; simp [dedupFrom]
  | cons x xs ih =>
    intro p ys
    by_cases hx : x = p
    · subst hx
      rw [List.cons_append, dedupFrom_cons_self, dedupFrom_cons_self, ih x ys,
        List.getLastD_cons]
    · rw [List.cons_append, dedupFrom_cons_ne p x (xs ++ ys) hx,
        dedupFrom_cons_ne p x xs hx, ih x ys, List.getLastD_cons, List.cons_append]

theorem dedupFrom_sublist {V : Type} [DecidableEq V] (l : List V) :
    ∀ p : V, (dedupFrom p l).Sublist l := by
  induction l with
  | nil => intro p; simp [dedupFrom]
  | cons x xs ih =>
    intro p
    by_cases hx : x = p
    · simpa [dedupFrom, hx] using List.Sublist.cons x (ih p)
    · simpa [dedupFrom, hx] using List.Sublist.cons₂ x (ih x)

/-! ### Leaf construction (`createLeaf`, tree.js lines 186-192)

`createLeaf` throws when handed a provisional node whose current children registry
(`provisionalNode.getChildrenSubject.getValue()`) has at least one key. -/

/-- Per-child view a branch keeps of one child node: whether the child is still
provisional and the latest value its combined observable has published, if any. -/
structure Child (V : Type) where
  provisional : Bool
  latest : Option V
deriving DecidableEq

/-- Result of a successful `createLeaf`: a finalized node holding the value. -/
structure LeafNode (V : Type) where
  value : V
deriving DecidableEq

/-- Shallow embedding of the guard and construction in `createLeaf`
(tree.js lines 180-214): with a provisional node whose registry is non-empty it
throws (`ShapeConflictError`); otherwise it builds the leaf around the value. -/
def createLeaf {V : Type} (initialState : V)
    (provisionalNode : Option (List (String × Child V))) : Except TreeError (LeafNode V) :=
  match provisionalNode with
  | some registry =>
    if (keysOf registry).length ≠ 0 then Except.error TreeError.shapeConflict
    else Except.ok { value := initialState }
  | none => Except.ok { value := initialState }

/-- C7: promoting a provisional node that already has registered children to a leaf
fails with the shape-conflict error ("branch cannot become a leaf") instead of
succeeding. -/
theorem claim_C7_leaf_from_provisional_with_children_fails {V : Type} (v : V)
    (registry : List (String × Child V)) (h : registry ≠ []) :
    createLeaf v (some registry) = Except.error TreeError.shapeConflict := by
  have hlen : (keysOf registry).length ≠ 0 := by
    simp [keysOf]
    exact h
  simp [createLeaf, hlen]

theorem claim_C7_witness :
    ([(("a" : String), ({ provisional := true, latest := none } : Child Nat))] ≠ []) ∧
      createLeaf (5 : Nat) (some [("a", { provisional := true, latest := none })]) =
        Except.error TreeError.shapeConflict :=
  ⟨by decide,
   claim_C7_leaf_from_provisional_with_children_fails 5
     [("a", { provisional := true, latest := none })] (by decide)⟩

/-- C8 counterexample: a leaf whose current value is `5` receives the same value
twice in a row; the publish log after the two assignments is identical to the log
with no assignment at all, so the pair of assignments produced zero publishes, not
the "exactly one" the claim demands. -/
theorem claim_C8_counterexample_zero_publishes :
    leafPublishes (5 : Nat) [5, 5] = [5] ∧ leafPublishes (5 : Nat) [] = [5] := by
  constructor <;> rfl

/-- C8 (amended): assigning the same value twice in a row produces at most one
publish — the second assignment of the pair never publishes, and the pair publishes
exactly once when the assigned value differs from the leaf's current value. -/
theorem claim_C8_dedup_at_most_one_publish {V : Type} [DecidableEq V]
    (initialState v : V) (pushes : List V) :
    leafPublishes initialState (pushes ++ [v, v]) = leafPublishes initialState (pushes ++ [v])
    ∧ (v ≠ currentValue initialState pushes →
        leafPublishes initialState (pushes ++ [v, v]) = leafPublishes initialState pushes ++ [v]) := by
  constructor
  · unfold leafPublishes
    rw [dedupFrom_append pushes initialState [v, v], dedupFrom_append pushes initialState [v],
      dedupFrom_pair]
  · intro hne
    unfold currentValue at hne
    unfold leafPublishes
    rw [dedupFrom_append pushes initialState [v, v], dedupFrom_pair, dedupFrom_single,
      if_neg hne, List.cons_append]

theorem claim_C8_witness :
    (leafPublishes (0 : Nat) ([] ++ [1, 1]) = leafPublishes 0 ([] ++ [1]))
    ∧ leafPublishes (0 : Nat) ([] ++ [1, 1]) = leafPublishes 0 [] ++ [1] :=
  ⟨(claim_C8_dedup_at_most_one_publish 0 1 []).1,
   (claim_C8_dedup_at_most_one_publish 0 1 []).2 (by decide)⟩

/-- C9: a subscriber arriving at a node that has already published a value
immediately receives the latest value and then the later changes in order.  Leaf
conjuncts: the view starts with the current value and its tail is a subsequence (in
order) of the later pushes.  Branch conjunct: a replay-1 value stream with non-empty
history hands the new subscriber the last published value followed by the future
publishes unchanged. -/
theorem claim_C9_replay_then_ordered_changes {V : Type} [DecidableEq V]
    (initialState : V) (before af : List V) (history future : List V) :
    (leafSubscriberView initialState before af).head? =
        some (currentValue initialState before)
    ∧ (leafSubscriberView initialState before af).tail.Sublist af
    ∧ (history ≠ [] →
        ∃ lv, history.getLast? = some lv ∧ replay1View history future = lv :: future) := by
  refine ⟨rfl, ?_, ?_⟩
  · simpa [leafSubscriberView] using dedupFrom_sublist af (currentValue initialState before)
  · intro hne
    obtain ⟨lv, hlv⟩ := Option.ne_none_iff_exists'.mp (mt List.getLast?_eq_none_iff.mp hne)
    exact ⟨lv, hlv, by simp [replay1View, hlv]⟩

theorem claim_C9_witness :
    ((leafSubscriberView (1 : Nat) [2] [3, 3]).head? = some (currentValue 1 [2]))
    ∧ (leafSubscriberView (1 : Nat) [2] [3, 3]).tail.Sublist [3, 3]
    ∧ (∃ lv, ([7] : List Nat).getLast? = some lv ∧ replay1View [7] [8] = lv :: [8]) := by
  have h := claim_C9_replay_then_ordered_changes (1 : Nat) [2] [3, 3] [7] [8]
  exact ⟨h.1, h.2.1, h.2.2 (by decide)⟩

/-! ### Branch node machinery

The remaining functions of `tree.js` all act on the Rx plumbing a branch owns:
`addChildrenSubject` (the add-child sink), `getChildrenSubject` (a behavior subject
holding the current registry), the derived `childrenObservable`
(`createChildrenObservable`, shareReplay(1)), the two-stage combined stream
(`createTreeObservable`) gated by `pausable(pauser)`, and the shape-validating
setter (`createTreeSetNextState`).  We model one branch as a state machine whose
events are exactly the pushes those subjects can receive. -/

/-- Child node freshly built by `createTree` inside the `createChildrenObservable`
selector: a provisional child (forward reference, no value yet) has published
nothing; a child finalized with `value` has that value as the latest publication of
its combined/leaf observable. -/
def newChildNode {V : Type} (value : V) (provisional : Bool) : Child V :=
  { provisional := provisional, latest := if provisional then none else some value }

/-- Shallow embedding of the `withLatestFrom` selector in `createChildrenObservable`
(tree.js lines 75-96), processing one `{ key, value, provisional }` event against
the accumulated registry: a missing or still-provisional entry at `key` is
(re)created — promoting the existing provisional child in place — while an already
finalized entry raises `throwFinalizedError(key)`.  (The source's trailing
`return acc` branch is unreachable: the first two tests cover all cases.) -/
def childrenObservableStep {V : Type} (acc : List (String × Child V))
    (key : String) (value : V) (provisional : Bool) :
    Except TreeError (List (String × Child V)) :=
  match lookupKey acc key with
  | none => Except.ok (setKey acc key (newChildNode value provisional))
  | some oldNode =>
    if oldNode.provisional then Except.ok (setKey acc key (newChildNode value provisional))
    else Except.error (TreeError.alreadyFinalized key)

/-- Stage A of `createTreeObservable` (tree.js lines 38-52): from the latest
registry, keep the mapping of children that are not provisional. -/
def liveChildren {V : Type} (children : List (String × Child V)) :
    List (String × Child V) :=
  children.filter (fun kv => !kv.2.provisional)

/-- Stage B of `createTreeObservable` (tree.js lines 53-65): `combineLatest` over
the live children's combined observables publishes a mapping from key to latest
child value — and publishes nothing at all until every input has published at
least once. -/
def combineLatestValues {V : Type} : List (String × Child V) → Option (List (String × V))
  | [] => some []
  | (k, c) :: rest =>
    match c.latest, combineLatestValues rest with
    | some v, some m => some ((k, v) :: m)
    | _, _ => none

/-- Latest value of the branch's combined stream (`createTreeObservable`) for a
given registry, if the stream has one: stage A filters the registry; a
`combineLatest` over zero inputs (all children provisional) never emits. -/
def treeObservableValue {V : Type} (registry : List (String × Child V)) :
    Option (List (String × V)) :=
  match liveChildren registry with
  | [] => none
  | live => combineLatestValues live

/-- State of one branch node's plumbing, as set up by `createInitialTree`
(tree.js lines 127-178): the current registry projection
(`getChildrenSubject`, kept in sync by `childrenObservable.subscribe(getChildrenSubject)`),
whether `childrenObservable` (a `shareReplay(1)` stream) has emitted yet — the
gate `withLatestFrom` imposes on the setter —, the latest pauser value
(`true` = flowing, the `BehaviorSubject(true)` default), the liveness of the two
error-prone subscriptions (RxJS 4 disposes a subscription whose callback throws,
and terminates a stream whose selector throws), the accumulated `setNextState`
calls forwarded to children, the combined values delivered to subscribers of the
pausable value stream, and the errors thrown so far.

`setterAlive` is the `newStateSubject.withLatestFrom(children).subscribe(...)`
chain of `createTreeSetNextState`: when its callback throws a `ShapeError`, the
`AutoDetachObserver` disposes it before the throw propagates to the caller, so
later `setNextState` pushes are silently dropped.  `childrenAlive` is the shared
`childrenObservable` subscription: a `throwFinalizedError` inside its
`withLatestFrom` selector terminates the stream with `onError`, which also kills
every downstream consumer — the registry projection, the combined pipeline feeding
`valueSubject`, and the setter's `withLatestFrom` source. -/
structure BranchState (V : Type) where
  registry : List (String × Child V)
  childrenEmitted : Bool
  flowing : Bool
  setterAlive : Bool
  childrenAlive : Bool
  childCalls : List (String × V)
  delivered : List (List (String × V))
  errors : List TreeError
deriving DecidableEq

/-- Events a branch's subjects can receive: an add-child push on
`addChildrenSubject`, a new-state push on the setter's `newStateSubject`, and a
pauser push (`pauser.onNext`). -/
inductive Ev (V : Type) where
  | addChild (key : String) (value : V) (provisional : Bool) : Ev V
  | setNext (s : List (String × V)) : Ev V
  | setPause (flowing : Bool) : Ev V
deriving DecidableEq

/-- Delivery of the branch's current combined value to subscribers, gated by
`pausable(pauser)`: while paused nothing reaches them, and once
`childrenObservable` has terminated with an error the whole pipeline into
`valueSubject` is dead; otherwise the latest combined value (when the two-stage
pipeline has one) is appended to the log. -/
def deliverCombined {V : Type} (σ : BranchState V) : BranchState V :=
  if σ.flowing && σ.childrenAlive then
    match treeObservableValue σ.registry with
    | some m => { σ with delivered := σ.delivered ++ [m] }
    | none => σ
  else σ

/-- Forwarding step of the `createTreeSetNextState` subscription body
(tree.js lines 22-28) for one registry key that is present in the new state:
`children[key].getValue().setNextState(newState[key])`.

A provisional child (forward reference, empty children registry in this one-level
model) has a validating setter whose `withLatestFrom` has never latched, so the
push is dropped: no value update, no publish.  For a finalized child the
forwarded value becomes the child's latest publication and, if it changed, the
child's observable fires so the branch recombines and (if flowing) delivers.
Scope of the one-level embedding: values live in the opaque type `V`, so a value
forwarded to a finalized branch child is taken to be shape-compatible with that
child (a nested shape mismatch cannot be expressed); no theorem below relies on
routing into branch children with nested shapes. -/
def applyChildCall {V : Type} [DecidableEq V] (σ : BranchState V) (key : String) (v : V) :
    BranchState V :=
  match lookupKey σ.registry key with
  | none => { σ with childCalls := σ.childCalls ++ [(key, v)] }
  | some c =>
    if c.provisional then { σ with childCalls := σ.childCalls ++ [(key, v)] }
    else
      let σ2 : BranchState V :=
        { σ with
          registry := setKey σ.registry key { c with latest := some v },
          childCalls := σ.childCalls ++ [(key, v)] }
      if c.latest = some v then σ2 else deliverCombined σ2

/-- Loop body of `createTreeSetNextState` (tree.js lines 22-28): walk the registry
keys in order; a key present in the new state is forwarded to that child, a key
missing from the new state throws `ShapeError`, aborting the walk and disposing
the setter's subscription (`AutoDetachObserver` on a throwing callback). -/
def routeNewState {V : Type} [DecidableEq V] (s : List (String × V)) :
    BranchState V → List String → BranchState V
  | σ, [] => σ
  | σ, key :: rest =>
    match lookupKey s key with
    | some v => routeNewState s (applyChildCall σ key v) rest
    | none => { σ with errors := σ.errors ++ [TreeError.shapeError], setterAlive := false }

/-- One event step of the branch machine.

`addChild`: a push into `addChildrenSubject` reaches the `createChildrenObservable`
selector only while that shared stream is alive; the selector runs against the
latest registry and on success the new registry is emitted (so `childrenEmitted`
becomes true, `getChildrenSubject` is updated and the combined pipeline recomputes
and, if flowing, delivers).  A thrown `AlreadyFinalizedError` terminates
`childrenObservable` with `onError`, killing the registry projection, the combined
pipeline and the setter's `withLatestFrom` source: after it, every event of this
branch is silently dropped.  A plain-object-valued child's creation additionally
runs the child's own `updateAddChildrenSubject` on the SHARED pauser during the
selector, before the parent's registry emission; those pauser pushes are
represented as explicit `setPause` events in the parent's event stream (see
`addChildPushEvents` below), not folded into this case.

`setNext`: a push into `newStateSubject` is dropped once the setter subscription
has been disposed by an earlier throw, and dropped by `withLatestFrom` while
`childrenObservable` has never emitted; otherwise the subscription body compares
key counts (`ShapeError` on mismatch, disposing the subscription) and then routes
key by key.

`setPause`: `pausable` tracks the latest distinct pauser value; resuming
re-attaches the subscriber to the replayed combined pipeline, which immediately
re-emits its current value when it has one and is still alive. -/
def branchStep {V : Type} [DecidableEq V] (σ : BranchState V) : Ev V → BranchState V
  | Ev.addChild key value provisional =>
    if σ.childrenAlive then
      match childrenObservableStep σ.registry key value provisional with
      | Except.error e =>
        { σ with errors := σ.errors ++ [e], childrenAlive := false, setterAlive := false }
      | Except.ok reg2 => deliverCombined { σ with registry := reg2, childrenEmitted := true }
    else σ
  | Ev.setNext s =>
    if σ.setterAlive && σ.childrenEmitted then
      if s.length ≠ σ.registry.length then
        { σ with errors := σ.errors ++ [TreeError.shapeError], setterAlive := false }
      else routeNewState s σ (keysOf σ.registry)
    else σ
  | Ev.setPause b =>
    if b = σ.flowing then σ
    else if b then deliverCombined { σ with flowing := true }
    else { σ with flowing := false }

/-- Run a list of pushed events through the branch machine. -/
def runEvents {V : Type} [DecidableEq V] (σ : BranchState V) (evs : List (Ev V)) :
    BranchState V :=
  evs.foldl branchStep σ

/-- Plumbing of a freshly created provisional branch (`createInitialTree` with
`provisional: true`): empty `getChildrenSubject`, `childrenObservable` silent so
far, pauser at its `BehaviorSubject(true)` default, every subscription alive,
nothing routed, delivered or thrown. -/
def initialBranchState {V : Type} : BranchState V :=
  { registry := [], childrenEmitted := false, flowing := true,
    setterAlive := true, childrenAlive := true,
    childCalls := [], delivered := [], errors := [] }

/-- Pushes performed by `updateAddChildrenSubject` itself (tree.js lines 100-109):
pause, one non-provisional add-child event per key of the initial state in object
order, then resume.  (These are only that function's own pushes; creating a
plain-object-valued child injects further pushes on the shared pauser — see
`addChildPushEvents`.) -/
def updateAddChildrenSubjectEvents {V : Type} (initialState : List (String × V)) :
    List (Ev V) :=
  Ev.setPause false ::
    (initialState.map (fun kv => Ev.addChild kv.1 kv.2 false) ++ [Ev.setPause true])

/-- Parent-visible events generated by one `addChildrenSubject.onNext` during a
bulk population, for a child value whose `isPlainObject` test is `isObj`.  A
plain-object value makes the selector's `createTree` call run the child's own
`updateAddChildrenSubject(childValue, childAddChildrenSubject, pauser)`
(tree.js line 157, reached from lines 80-87) on the SHARED `pauser`: its
`pauser.onNext(false)` and trailing `pauser.onNext(true)` (line 108) reach the
parent's `pausable` before the selector returns, i.e. before the parent's
registry emission.  (Deeper nesting only adds pauser pushes that are no-ops on
the already-toggled pauser, so one pause/resume pair per object-valued child is
the parent-visible sequence at any depth.) -/
def addChildPushEvents {V : Type} (key : String) (value : V) (isObj : Bool) :
    List (Ev V) :=
  if isObj then [Ev.setPause false, Ev.setPause true, Ev.addChild key value false]
  else [Ev.addChild key value false]

/-- Complete parent-visible event sequence of a bulk population
(`updateAddChildrenSubject` over an initial state whose values may themselves be
plain objects): the surrounding pause/resume of lines 102 and 108 around the
per-key pushes, each expanded by the shared-pauser traffic its child's creation
injects. -/
def bulkPopulationEvents {V : Type} (initialState : List (String × V × Bool)) :
    List (Ev V) :=
  Ev.setPause false ::
    (initialState.flatMap (fun kv => addChildPushEvents kv.1 kv.2.1 kv.2.2)
      ++ [Ev.setPause true])

theorem deliverCombined_errors {V : Type} (σ : BranchState V) :
    (deliverCombined σ).errors = σ.errors := by
  unfold deliverCombined
  by_cases h : σ.flowing && σ.childrenAlive <;>
    cases treeObservableValue σ.registry <;> simp [h]

theorem deliverCombined_registry {V : Type} (σ : BranchState V) :
    (deliverCombined σ).registry = σ.registry := by
  unfold deliverCombined
  by_cases h : σ.flowing && σ.childrenAlive <;>
    cases treeObservableValue σ.registry <;> simp [h]

theorem deliverCombined_childrenEmitted {V : Type} (σ : BranchState V) :
    (deliverCombined σ).childrenEmitted = σ.childrenEmitted := by
  unfold deliverCombined
  by_cases h : σ.flowing && σ.childrenAlive <;>
    cases treeObservableValue σ.registry <;> simp [h]

theorem deliverCombined_setterAlive {V : Type} (σ : BranchState V) :
    (deliverCombined σ).setterAlive = σ.setterAlive := by
  unfold deliverCombined
  by_cases h : σ.flowing && σ.childrenAlive <;>
    cases treeObservableValue σ.registry <;> simp [h]

theorem deliverCombined_childrenAlive {V : Type} (σ : BranchState V) :
    (deliverCombined σ).childrenAlive = σ.childrenAlive := by
  unfold deliverCombined
  by_cases h : σ.flowing && σ.childrenAlive <;>
    cases treeObservableValue σ.registry <;> simp [h]

theorem applyChildCall_errors {V : Type} [DecidableEq V] (σ : BranchState V)
    (key : String) (v : V) : (applyChildCall σ key v).errors = σ.errors := by
  unfold applyChildCall
  cases h : lookupKey σ.registry key with
  | none => rfl
  | some c =>
    by_cases hp : c.provisional = true
    · simp [hp]
    · by_cases hl : c.latest = some v <;> simp [hp, hl, deliverCombined_errors]

theorem applyChildCall_keysOf {V : Type} [DecidableEq V] (σ : BranchState V)
    (key : String) (v : V) :
    keysOf (applyChildCall σ key v).registry = keysOf σ.registry := by
  unfold applyChildCall
  cases h : lookupKey σ.registry key with
  | none => rfl
  | some c =>
    have hmem : key ∈ keysOf σ.registry := by
      by_contra hk
      rw [← lookupKey_eq_none_iff] at hk
      rw [h] at hk
      cases hk
    by_cases hp : c.provisional = true
    · simp [hp]
    · by_cases hl : c.latest = some v <;>
        simp [hp, hl, deliverCombined_registry, keysOf_setKey_mem _ _ _ hmem]

theorem applyChildCall_childrenEmitted {V : Type} [DecidableEq V] (σ : BranchState V)
    (key : String) (v : V) :
    (applyChildCall σ key v).childrenEmitted = σ.childrenEmitted := by
  unfold applyChildCall
  cases h : lookupKey σ.registry key with
  | none => rfl
  | some c =>
    by_cases hp : c.provisional = true
    · simp [hp]
    · by_cases hl : c.latest = some v <;> simp [hp, hl, deliverCombined_childrenEmitted]

theorem applyChildCall_setterAlive {V : Type} [DecidableEq V] (σ : BranchState V)
    (key : String) (v : V) :
    (applyChildCall σ key v).setterAlive = σ.setterAlive := by
  unfold applyChildCall
  cases h : lookupKey σ.registry key with
  | none => rfl
  | some c =>
    by_cases hp : c.provisional = true
    · simp [hp]
    · by_cases hl : c.latest = some v <;> simp [hp, hl, deliverCombined_setterAlive]

theorem applyChildCall_childrenAlive {V : Type} [DecidableEq V] (σ : BranchState V)
    (key : String) (v : V) :
    (applyChildCall σ key v).childrenAlive = σ.childrenAlive := by
  unfold applyChildCall
  cases h : lookupKey σ.registry key with
  | none => rfl
  | some c =>
    by_cases hp : c.provisional = true
    · simp [hp]
    · by_cases hl : c.latest = some v <;> simp [hp, hl, deliverCombined_childrenAlive]

theorem routeNewState_errors_of_missing {V : Type} [DecidableEq V]
    (s : List (String × V)) :
    ∀ (keys : List String) (σ : BranchState V),
      (∃ k ∈ keys, lookupKey s k = none) →
      (routeNewState s σ keys).errors = σ.errors ++ [TreeError.shapeError] := by
  intro keys
  induction keys with
  | nil =>
    rintro σ ⟨k, hk, hnone⟩
    cases hk
  | cons key rest ih =>
    rintro σ ⟨k, hk, hnone⟩
    cases hlk : lookupKey s key with
    | some v =>
      have hkr : k ∈ rest := by
        rcases List.mem_cons.mp hk with h | h
        · subst h; rw [hlk] at hnone; cases hnone
        · exact h
      rw [show routeNewState s σ (key :: rest) = routeNewState s (applyChildCall σ key v) rest
          from by simp [routeNewState, hlk]]
      rw [ih (applyChildCall σ key v) ⟨k, hkr, hnone⟩, applyChildCall_errors]
    | none => simp [routeNewState, hlk]

theorem routeNewState_keysOf {V : Type} [DecidableEq V] (s : List (String × V)) :
    ∀ (keys : List String) (σ : BranchState V),
      keysOf (routeNewState s σ keys).registry = keysOf σ.registry := by
  intro keys
  induction keys with
  | nil => intro σ; rfl
  | cons key rest ih =>
    intro σ
    cases hlk : lookupKey s key with
    | some v =>
      rw [show routeNewState s σ (key :: rest) = routeNewState s (applyChildCall σ key v) rest
          from by simp [routeNewState, hlk]]
      rw [ih, applyChildCall_keysOf]
    | none => simp [routeNewState, hlk]

theorem routeNewState_childrenEmitted {V : Type} [DecidableEq V] (s : List (String × V)) :
    ∀ (keys : List String) (σ : BranchState V),
      (routeNewState s σ keys).childrenEmitted = σ.childrenEmitted := by
  intro keys
  induction keys with
  | nil => intro σ; rfl
  | cons key rest ih =>
    intro σ
    cases hlk : lookupKey s key with
    | some v =>
      rw [show routeNewState s σ (key :: rest) = routeNewState s (applyChildCall σ key v) rest
          from by simp [routeNewState, hlk]]
      rw [ih, applyChildCall_childrenEmitted]
    | none => simp [routeNewState, hlk]

theorem childrenObservableStep_ok {V : Type} (acc : List (String × Child V))
    (key : String) (v : V) (p : Bool) (reg2 : List (String × Child V))
    (h : childrenObservableStep acc key v p = Except.ok reg2) :
    reg2 = setKey acc key (newChildNode v p) := by
  cases hlk : lookupKey acc key with
  | none =>
    simp only [childrenObservableStep, hlk] at h
    exact (Except.ok.inj h).symm
  | some old =>
    simp only [childrenObservableStep, hlk] at h
    by_cases hp : old.provisional = true
    · rw [if_pos hp] at h
      exact (Except.ok.inj h).symm
    · rw [if_neg hp] at h
      cases h

theorem routeNewState_errors_nil {V : Type} [DecidableEq V] (s : List (String × V)) :
    ∀ (keys : List String) (σ : BranchState V),
      (routeNewState s σ keys).errors = [] →
      σ.errors = [] ∧ (routeNewState s σ keys).setterAlive = σ.setterAlive
        ∧ (routeNewState s σ keys).childrenAlive = σ.childrenAlive := by
  intro keys
  induction keys with
  | nil => intro σ h; exact ⟨h, rfl, rfl⟩
  | cons key rest ih =>
    intro σ h
    cases hlk : lookupKey s key with
    | some v =>
      rw [show routeNewState s σ (key :: rest) = routeNewState s (applyChildCall σ key v) rest
          from by simp [routeNewState, hlk]] at h ⊢
      obtain ⟨h1, h2, h3⟩ := ih (applyChildCall σ key v) h
      rw [applyChildCall_errors] at h1
      exact ⟨h1, by rw [h2, applyChildCall_setterAlive], by rw [h3, applyChildCall_childrenAlive]⟩
    | none =>
      rw [show routeNewState s σ (key :: rest)
          = { σ with errors := σ.errors ++ [TreeError.shapeError], setterAlive := false }
        from by simp [routeNewState, hlk]] at h
      simp at h

theorem nodup_registry_branchStep {V : Type} [DecidableEq V] (σ : BranchState V)
    (e : Ev V) (h : (keysOf σ.registry).Nodup) :
    (keysOf (branchStep σ e).registry).Nodup := by
  cases e with
  | addChild key v p =>
    by_cases hca : σ.childrenAlive
    · cases hstep : childrenObservableStep σ.registry key v p with
      | error err => simp [branchStep, hca, hstep]; exact h
      | ok reg2 =>
        have h2 := childrenObservableStep_ok σ.registry key v p reg2 hstep
        simp [branchStep, hca, hstep, deliverCombined_registry, h2]
        exact nodup_keysOf_setKey _ _ _ h
    · simp [branchStep, hca]; exact h
  | setNext s =>
    by_cases hactive : (σ.setterAlive && σ.childrenEmitted) = true
    · by_cases hlen : s.length ≠ σ.registry.length
      · simp [branchStep, hactive, hlen]; exact h
      · simp [branchStep, hactive, hlen, routeNewState_keysOf]
        exact h
    · simp [branchStep, hactive]; exact h
  | setPause b =>
    cases hb : σ.flowing <;> cases b <;>
      simpa [branchStep, deliverCombined_registry, hb] using h

theorem branchStep_errors_nil {V : Type} [DecidableEq V] (σ : BranchState V) (e : Ev V)
    (h : (branchStep σ e).errors = []) :
    σ.errors = [] ∧ (branchStep σ e).setterAlive = σ.setterAlive
      ∧ (branchStep σ e).childrenAlive = σ.childrenAlive := by
  cases e with
  | addChild key v p =>
    by_cases hca : σ.childrenAlive
    · cases hstep : childrenObservableStep σ.registry key v p with
      | error err =>
        rw [show branchStep σ (Ev.addChild key v p)
            = { σ with errors := σ.errors ++ [err], childrenAlive := false, setterAlive := false }
          from by simp [branchStep, hca, hstep]] at h
        simp at h
      | ok reg2 =>
        rw [show branchStep σ (Ev.addChild key v p)
            = deliverCombined { σ with registry := reg2, childrenEmitted := true }
          from by simp [branchStep, hca, hstep]] at h ⊢
        rw [deliverCombined_errors] at h
        exact ⟨h, by rw [deliverCombined_setterAlive], by rw [deliverCombined_childrenAlive]⟩
    · rw [show branchStep σ (Ev.addChild key v p) = σ from by simp [branchStep, hca]] at h ⊢
      exact ⟨h, rfl, rfl⟩
  | setNext s =>
    by_cases hactive : (σ.setterAlive && σ.childrenEmitted) = true
    · by_cases hlen : s.length ≠ σ.registry.length
      · rw [show branchStep σ (Ev.setNext s)
            = { σ with errors := σ.errors ++ [TreeError.shapeError], setterAlive := false }
          from by simp [branchStep, hactive, hlen]] at h
        simp at h
      · rw [show branchStep σ (Ev.setNext s) = routeNewState s σ (keysOf σ.registry)
          from by simp [branchStep, hactive, hlen]] at h ⊢
        exact routeNewState_errors_nil s (keysOf σ.registry) σ h
    · rw [show branchStep σ (Ev.setNext s) = σ from by simp [branchStep, hactive]] at h ⊢
      exact ⟨h, rfl, rfl⟩
  | setPause b =>
    by_cases hbe : b = σ.flowing
    · rw [show branchStep σ (Ev.setPause b) = σ from by simp [branchStep, hbe]] at h ⊢
      exact ⟨h, rfl, rfl⟩
    · by_cases hbt : b = true
      · subst hbt
        rw [show branchStep σ (Ev.setPause true) = deliverCombined { σ with flowing := true }
          from by simp [branchStep, hbe]] at h ⊢
        rw [deliverCombined_errors] at h
        exact ⟨h, by rw [deliverCombined_setterAlive], by rw [deliverCombined_childrenAlive]⟩
      · have hbf : b = false := by simpa using hbt
        subst hbf
        rw [show branchStep σ (Ev.setPause false) = { σ with flowing := false }
          from by simp [branchStep, hbe]] at h ⊢
        exact ⟨h, rfl, rfl⟩

theorem alive_of_errors_nil {V : Type} [DecidableEq V] :
    ∀ (tr : List (Ev V)) (σ : BranchState V),
      (σ.errors = [] → σ.setterAlive = true ∧ σ.childrenAlive = true) →
      (runEvents σ tr).errors = [] →
      (runEvents σ tr).setterAlive = true ∧ (runEvents σ tr).childrenAlive = true := by
  intro tr
  induction tr with
  | nil => intro σ hinv h; exact hinv h
  | cons e rest ih =>
    intro σ hinv h
    rw [show runEvents σ (e :: rest) = runEvents (branchStep σ e) rest from rfl] at h ⊢
    refine ih (branchStep σ e) ?_ h
    intro h2
    obtain ⟨h3, h4, h5⟩ := branchStep_errors_nil σ e h2
    obtain ⟨h6, h7⟩ := hinv h3
    exact ⟨by rw [h4, h6], by rw [h5, h7]⟩

theorem nodup_registry_runEvents {V : Type} [DecidableEq V] (tr : List (Ev V)) :
    ∀ (σ : BranchState V), (keysOf σ.registry).Nodup →
      (keysOf (runEvents σ tr).registry).Nodup := by
  induction tr with
  | nil => intro σ h; exact h
  | cons e rest ih =>
    intro σ h
    rw [show runEvents σ (e :: rest) = runEvents (branchStep σ e) rest from rfl]
    exact ih _ (nodup_registry_branchStep σ e h)

/-- C6: the add-child protocol of `createChildrenObservable` — with no finalized
child at `key` (none at all, or only a provisional one) a new child node is built
and recorded under `key`, the provisional one being promoted in place (the key set
does not change); with a finalized child already at `key` the event fails with
`AlreadyFinalizedError(key)`. -/
theorem claim_C6_add_child_protocol {V : Type} (acc : List (String × Child V))
    (key : String) (v : V) (p : Bool) :
    (lookupKey acc key = none →
      ∃ reg2, childrenObservableStep acc key v p = Except.ok reg2 ∧
        lookupKey reg2 key = some (newChildNode v p))
    ∧ (∀ old, lookupKey acc key = some old → old.provisional = true →
        ∃ reg2, childrenObservableStep acc key v p = Except.ok reg2 ∧
          lookupKey reg2 key = some (newChildNode v p) ∧ keysOf reg2 = keysOf acc)
    ∧ (∀ old, lookupKey acc key = some old → old.provisional = false →
        childrenObservableStep acc key v p = Except.error (TreeError.alreadyFinalized key)) := by
  refine ⟨?_, ?_, ?_⟩
  · intro hnone
    refine ⟨setKey acc key (newChildNode v p), ?_, lookupKey_setKey_self acc key _⟩
    simp only [childrenObservableStep, hnone]
  · intro old hsome hp
    refine ⟨setKey acc key (newChildNode v p), ?_, lookupKey_setKey_self acc key _, ?_⟩
    · simp only [childrenObservableStep, hsome]
      rw [if_pos hp]
    · have hmem : key ∈ keysOf acc := by
        by_contra hk
        rw [← lookupKey_eq_none_iff] at hk
        rw [hsome] at hk
        cases hk
      exact keysOf_setKey_mem acc key _ hmem
  · intro old hsome hp
    simp only [childrenObservableStep, hsome]
    rw [if_neg (by simp [hp])]

theorem claim_C6_witness :
    (∃ reg2, childrenObservableStep
        [(("a" : String), ({ provisional := true, latest := none } : Child Nat))] "a" 5 false =
          Except.ok reg2 ∧
        lookupKey reg2 "a" = some (newChildNode 5 false) ∧
        keysOf reg2 = keysOf [(("a" : String), ({ provisional := true, latest := none } : Child Nat))])
    ∧ childrenObservableStep
        [(("b" : String), ({ provisional := false, latest := some 7 } : Child Nat))] "b" 5 false =
          Except.error (TreeError.alreadyFinalized "b") := by
  constructor
  · exact (claim_C6_add_child_protocol
      [("a", { provisional := true, latest := none })] "a" 5 false).2.1
      { provisional := true, latest := none } (by decide) (by decide)
  · exact (claim_C6_add_child_protocol
      [("b", { provisional := false, latest := some 7 })] "b" 5 false).2.2
      { provisional := false, latest := some 7 } (by decide) (by decide)

theorem combineLatestValues_mem {V : Type} :
    ∀ (l : List (String × Child V)) (m : List (String × V)),
      combineLatestValues l = some m →
      ∀ k v, (k, v) ∈ m → ∃ c, (k, c) ∈ l ∧ c.latest = some v := by
  intro l
  induction l with
  | nil =>
    intro m h k v hm
    cases h
    cases hm
  | cons hd rest ih =>
    obtain ⟨k0, c0⟩ := hd
    intro m h k v hm
    cases hc0 : c0.latest with
    | none => rw [show combineLatestValues ((k0, c0) :: rest) = none from by
        simp [combineLatestValues, hc0]] at h; cases h
    | some v0 =>
      cases hrest : combineLatestValues rest with
      | none => rw [show combineLatestValues ((k0, c0) :: rest) = none from by
          simp [combineLatestValues, hc0, hrest]] at h; cases h
      | some m0 =>
        rw [show combineLatestValues ((k0, c0) :: rest) = some ((k0, v0) :: m0) from by
          simp [combineLatestValues, hc0, hrest]] at h
        cases h
        rcases List.mem_cons.mp hm with h1 | h1
        · rw [Prod.mk.injEq] at h1
          obtain ⟨hk, hv⟩ := h1
          subst hk; subst hv
          exact ⟨c0, List.mem_cons_self _ _, hc0⟩
        · obtain ⟨c, hc, hl⟩ := ih m0 hrest k v h1
          exact ⟨c, List.mem_cons_of_mem _ hc, hl⟩

theorem mem_liveChildren {V : Type} (reg : List (String × Child V)) (k : String)
    (c : Child V) : (k, c) ∈ liveChildren reg ↔ (k, c) ∈ reg ∧ c.provisional = false := by
  unfold liveChildren
  rw [List.mem_filter]
  simp

/-- C4: every value published on a branch's combined stream maps only keys of
non-provisional children, each to a value that child has actually published
(its latest one). -/
theorem claim_C4_combined_excludes_provisional_and_unpublished {V : Type}
    (reg : List (String × Child V)) (m : List (String × V))
    (hnd : (keysOf reg).Nodup) (h : treeObservableValue reg = some m) :
    ∀ k v, (k, v) ∈ m →
      ∃ c, lookupKey reg k = some c ∧ c.provisional = false ∧ c.latest = some v := by
  intro k v hm
  have hlive : combineLatestValues (liveChildren reg) = some m := by
    unfold treeObservableValue at h
    cases hl : liveChildren reg with
    | nil => rw [hl] at h; cases h
    | cons x xs => rw [hl] at h; exact h
  obtain ⟨c, hc, hlatest⟩ := combineLatestValues_mem (liveChildren reg) m hlive k v hm
  rw [mem_liveChildren] at hc
  exact ⟨c, mem_lookupKey_of_nodup reg k c hnd hc.1, hc.2, hlatest⟩

theorem claim_C4_witness :
    ∃ c, lookupKey
        [(("a" : String), ({ provisional := false, latest := some 1 } : Child Nat)),
         ("p", { provisional := true, latest := none }),
         ("b", { provisional := false, latest := some 2 })] "a" = some c ∧
      c.provisional = false ∧ c.latest = some 1 :=
  claim_C4_combined_excludes_provisional_and_unpublished
    [("a", { provisional := false, latest := some 1 }),
     ("p", { provisional := true, latest := none }),
     ("b", { provisional := false, latest := some 2 })]
    [("a", 1), ("b", 2)] (by decide) (by rfl) "a" 1 (by decide)

/-- C1 (amended): on an error-free history — before any throw has disposed the
branch's Rx subscriptions — once a finalized branch's registry stream has emitted
(true of every branch given at least one child), a `setNextState` push whose key
set differs, in count or membership, from the registry key set as it stands after
the whole preceding event trace (the registry current at the moment the
assignment is processed) fails with `ShapeError`. -/
theorem claim_C1_shape_error_uses_current_registry {V : Type} [DecidableEq V]
    (tr : List (Ev V)) (s : List (String × V))
    (hclean : (runEvents (initialBranchState : BranchState V) tr).errors = [])
    (hem : (runEvents (initialBranchState : BranchState V) tr).childrenEmitted = true)
    (hs : (keysOf s).Nodup)
    (hne : (keysOf (runEvents (initialBranchState : BranchState V) tr).registry).toFinset
      ≠ (keysOf s).toFinset) :
    (branchStep (runEvents (initialBranchState : BranchState V) tr) (Ev.setNext s)).errors
      = [TreeError.shapeError] := by
  set σ := runEvents (initialBranchState : BranchState V) tr with hσ
  have halive : σ.setterAlive = true ∧ σ.childrenAlive = true := by
    rw [hσ]
    exact alive_of_errors_nil tr initialBranchState (fun _ => ⟨rfl, rfl⟩) hclean
  have hactive : (σ.setterAlive && σ.childrenEmitted) = true := by
    rw [halive.1, hem]
    rfl
  have hnd : (keysOf σ.registry).Nodup := by
    rw [hσ]
    exact nodup_registry_runEvents tr initialBranchState (by simp [initialBranchState, keysOf])
  by_cases hlen : s.length = σ.registry.length
  · have hmiss : ∃ k ∈ keysOf σ.registry, lookupKey s k = none := by
      by_contra hall
      push_neg at hall
      apply hne
      apply Finset.eq_of_subset_of_card_le
      · intro x hx
        rw [List.mem_toFinset] at hx ⊢
        have hne2 := hall x hx
        by_contra hxs
        exact hne2 ((lookupKey_eq_none_iff s x).mpr hxs)
      · rw [List.toFinset_card_of_nodup hs, List.toFinset_card_of_nodup hnd]
        simp [keysOf, hlen]
    obtain ⟨k, hk, hnone⟩ := hmiss
    have hroute := routeNewState_errors_of_missing s (keysOf σ.registry) σ ⟨k, hk, hnone⟩
    simp [branchStep, hactive, hlen, hroute, hclean]
  · simp [branchStep, hactive, hlen, hclean]

theorem claim_C1_witness :
    (branchStep (runEvents (initialBranchState : BranchState Nat) [Ev.addChild "a" 1 false])
        (Ev.setNext [("b", 2)])).errors = [TreeError.shapeError] :=
  claim_C1_shape_error_uses_current_registry [Ev.addChild "a" 1 false] [("b", 2)]
    (by decide) (by decide) (by decide) (by decide)

/-- C1 counterexample to the claim as frozen: a branch finalized with the empty
object shape (`updateAddChildrenSubject` over zero keys) never makes its registry
stream emit, so `setNextState({a: 1})` — a key-count mismatch against the empty
registry — is silently dropped by `withLatestFrom`: no `ShapeError`, no effect. -/
theorem claim_C1_counterexample_empty_shape_branch :
    branchStep (runEvents (initialBranchState : BranchState Nat)
        (updateAddChildrenSubjectEvents []))
      (Ev.setNext [("a", 1)])
      = runEvents (initialBranchState : BranchState Nat) (updateAddChildrenSubjectEvents [])
    ∧ (runEvents (initialBranchState : BranchState Nat)
        (updateAddChildrenSubjectEvents [])).errors = [] := by
  exact ⟨by decide, by decide⟩

/-- C2: evaluation of the code at the failing input.  A finalized branch with key
set {a, b} processes `setNextState({a: 10, c: 20})`: the key counts match so the
length check passes, child `a`'s setter is invoked (its value changes from 1 to 10)
and only then is the missing key `b` discovered and `ShapeError` thrown — the
rejected assignment has been applied to some children and not others, contradicting
the claim's validate-before-route requirement. -/
theorem claim_C2_partial_update_at_failing_input :
    (runEvents (initialBranchState : BranchState Nat)
        [Ev.addChild "a" 1 false, Ev.addChild "b" 2 false,
         Ev.setNext [("a", 10), ("c", 20)]]).errors = [TreeError.shapeError]
    ∧ (runEvents (initialBranchState : BranchState Nat)
        [Ev.addChild "a" 1 false, Ev.addChild "b" 2 false,
         Ev.setNext [("a", 10), ("c", 20)]]).childCalls = [("a", 10)]
    ∧ lookupKey (runEvents (initialBranchState : BranchState Nat)
        [Ev.addChild "a" 1 false, Ev.addChild "b" 2 false,
         Ev.setNext [("a", 10), ("c", 20)]]).registry "a"
      = some { provisional := false, latest := some 10 } := by
  exact ⟨by decide, by decide, by decide⟩

/-- Recognizer for add-child pushes among branch events. -/
def isAddChildEv {V : Type} : Ev V → Bool
  | Ev.addChild _ _ _ => true
  | _ => false

theorem childrenEmitted_branchStep_of_not_addChild {V : Type} [DecidableEq V]
    (σ : BranchState V) (e : Ev V) (h : isAddChildEv e = false) :
    (branchStep σ e).childrenEmitted = σ.childrenEmitted := by
  cases e with
  | addChild k v p => cases h
  | setNext s =>
    by_cases hactive : (σ.setterAlive && σ.childrenEmitted) = true
    · by_cases hlen : s.length ≠ σ.registry.length
      · simp [branchStep, hactive, hlen]
      · simp [branchStep, hactive, hlen, routeNewState_childrenEmitted]
    · simp [branchStep, hactive]
  | setPause b =>
    cases hb : σ.flowing <;> cases b <;>
      simp [branchStep, deliverCombined_childrenEmitted, hb]

theorem childrenEmitted_runEvents_no_addChild {V : Type} [DecidableEq V] :
    ∀ (tr : List (Ev V)) (σ : BranchState V),
      tr.all (fun e => !isAddChildEv e) = true →
      (runEvents σ tr).childrenEmitted = σ.childrenEmitted := by
  intro tr
  induction tr with
  | nil => intro σ h; rfl
  | cons e rest ih =>
    intro σ h
    rw [List.all_cons, Bool.and_eq_true] at h
    have h1 : isAddChildEv e = false := by
      cases he : isAddChildEv e
      · rfl
      · rw [he] at h; simp at h
    rw [show runEvents σ (e :: rest) = runEvents (branchStep σ e) rest from rfl]
    rw [ih _ h.2, childrenEmitted_branchStep_of_not_addChild σ e h1]

/-- C10: a provisional branch whose children registry has never received an
add-child event silently drops any `setNextState` push: the registry stream has
never emitted, `withLatestFrom` discards the push, and the machine state — values,
call log, delivery log and error log alike — is left completely unchanged. -/
theorem claim_C10_silent_drop_without_children {V : Type} [DecidableEq V]
    (tr : List (Ev V)) (s : List (String × V))
    (h : tr.all (fun e => !isAddChildEv e) = true) :
    branchStep (runEvents (initialBranchState : BranchState V) tr) (Ev.setNext s)
      = runEvents (initialBranchState : BranchState V) tr := by
  have hem : (runEvents (initialBranchState : BranchState V) tr).childrenEmitted = false := by
    rw [childrenEmitted_runEvents_no_addChild tr initialBranchState h]
    rfl
  simp [branchStep, hem]

theorem claim_C10_witness :
    branchStep (runEvents (initialBranchState : BranchState Nat) [Ev.setPause false])
      (Ev.setNext [("x", 0)])
      = runEvents (initialBranchState : BranchState Nat) [Ev.setPause false] :=
  claim_C10_silent_drop_without_children [Ev.setPause false] [("x", 0)] (by decide)

/-- C5: evaluation of the code at the failing input.  Finalizing (promoting) a
branch with initial state of the form `{x: {n: 2}, y: 3}` while the combined
stream is flowing: creating the plain-object-valued child `x` runs that child's
own `updateAddChildrenSubject` on the SHARED pauser, whose trailing
`pauser.onNext(true)` resumes the parent mid-population, so the subscriber
receives the partial mapping containing only `x` — one of the two declared
children — before `y` exists, and then the full mapping.  The pause gate was
supposed to make only the pre-declaration or the all-N combined value
observable.  Here `x`'s opaque combined value is written `100`, the leaf `y`
holds `3`, and no error is raised anywhere in the run. -/
theorem claim_C5_torn_delivery_at_failing_input :
    (runEvents (initialBranchState : BranchState Nat)
        (bulkPopulationEvents [("x", 100, true), ("y", 3, false)])).delivered
      = [[("x", 100)], [("x", 100), ("y", 3)]]
    ∧ (runEvents (initialBranchState : BranchState Nat)
        (bulkPopulationEvents [("x", 100, true), ("y", 3, false)])).errors = [] := by
  exact ⟨by decide, by decide⟩

/-! ### Promotion of a provisional node (`createFinalTreeFromProvisionalNode`)

`createFinalTreeFromProvisionalNode` (tree.js lines 111-125) destructures
`addChildrenSubject` and `pauser` out of the provisional node itself, replays the
initial state's keys into them with `updateAddChildrenSubject`, and builds the
final node with `createNode({ provisional: false, provisionalNode })`.  We model
the Rx subjects a node wraps by identity (a number per subject), since what the
claim asserts is exactly about identities: which sink the events go to and which
value stream subscribers stay attached to. -/

/-- Identities of the Rx subjects a branch node wraps: its add-child sink, its
registry behavior subject, its pauser and its replayed value subject. -/
structure Plumbing where
  addChildrenSubjectId : Nat
  getChildrenSubjectId : Nat
  pauserId : Nat
  valueSubjectId : Nat
deriving DecidableEq

/-- Outward node handle: the provisional flag plus the plumbing it wraps. -/
structure NodeHandle where
  provisional : Bool
  plumbing : Plumbing
deriving DecidableEq

/-- Pushes into identified subjects: a pauser push or an add-child push. -/
inductive SubjectMsg (V : Type) where
  | pauseMsg (subjectId : Nat) (flowing : Bool) : SubjectMsg V
  | addChildMsg (subjectId : Nat) (key : String) (value : V) (provisional : Bool) : SubjectMsg V
deriving DecidableEq

/-- Pushes performed by `updateAddChildrenSubject(initialState, addChildrenSubject,
pauser)` (tree.js lines 100-109) on the GIVEN subjects: pause, one non-provisional
add-child per key of the initial state in object order, resume. -/
def updateAddChildrenSubjectMsgs {V : Type} (initialState : List (String × V))
    (addChildrenSubjectId pauserId : Nat) : List (SubjectMsg V) :=
  SubjectMsg.pauseMsg pauserId false ::
    (initialState.map (fun kv => SubjectMsg.addChildMsg addChildrenSubjectId kv.1 kv.2 false)
      ++ [SubjectMsg.pauseMsg pauserId true])

/-- Modelled from the spec: `createNode` — the node factory — is not under `src/`;
per the spec, when it is called with `provisional: false` and a `provisionalNode`
(as `createFinalTreeFromProvisionalNode` does), it returns a Branch node wrapping
the same underlying registry/stream plumbing as the provisional node, so existing
subscribers keep receiving updates uninterrupted. -/
def createNodeFromProvisional (provisionalNode : NodeHandle) : NodeHandle :=
  { provisional := false, plumbing := provisionalNode.plumbing }

/-- Shallow embedding of `createFinalTreeFromProvisionalNode` (tree.js lines
111-125): the subject pushes it performs and the node it returns. -/
def createFinalTreeFromProvisionalNode {V : Type} (initialState : List (String × V))
    (provisionalNode : NodeHandle) : NodeHandle × List (SubjectMsg V) :=
  (createNodeFromProvisional provisionalNode,
   updateAddChildrenSubjectMsgs initialState
     provisionalNode.plumbing.addChildrenSubjectId provisionalNode.plumbing.pauserId)

/-- Values a subscriber attached to the stream with identity `subscribedId`
receives out of a log of `(stream identity, value)` publishes. -/
def deliveredToSubscriber {V : Type} (subscribedId : Nat)
    (publishes : List (Nat × V)) : List V :=
  publishes.filterMap (fun p => if p.1 = subscribedId then some p.2 else none)

/-- Translation of identified subject pushes to the branch machine events of the
plumbing they target. -/
def msgsToEvents {V : Type} (msgs : List (SubjectMsg V)) : List (Ev V) :=
  msgs.map (fun m =>
    match m with
    | SubjectMsg.pauseMsg _ b => Ev.setPause b
    | SubjectMsg.addChildMsg _ k v p => Ev.addChild k v p)

/-- C3: finalizing a provisional node happens in place — the initial state's keys
are replayed as a bulk population into the provisional node's own add-child sink
and pauser (the same subject identities), the returned branch wraps the very same
plumbing (in particular the same value stream, so a subscriber attached before
finalization receives exactly what a subscriber of the finalized node receives,
from the same publishes), and the replayed pushes are precisely a bulk population
run of the shared branch machine. -/
theorem claim_C3_promotion_preserves_plumbing {V : Type} [DecidableEq V]
    (initialState : List (String × V)) (p : NodeHandle) :
    (createFinalTreeFromProvisionalNode initialState p).1.plumbing = p.plumbing
    ∧ (createFinalTreeFromProvisionalNode initialState p).1.provisional = false
    ∧ (createFinalTreeFromProvisionalNode initialState p).2
        = updateAddChildrenSubjectMsgs initialState
            p.plumbing.addChildrenSubjectId p.plumbing.pauserId
    ∧ msgsToEvents (createFinalTreeFromProvisionalNode initialState p).2
        = updateAddChildrenSubjectEvents initialState
    ∧ (∀ publishes : List (Nat × V),
        deliveredToSubscriber p.plumbing.valueSubjectId publishes
          = deliveredToSubscriber
              (createFinalTreeFromProvisionalNode initialState p).1.plumbing.valueSubjectId
              publishes) := by
  refine ⟨rfl, rfl, rfl, ?_, fun publishes => rfl⟩
  unfold createFinalTreeFromProvisionalNode updateAddChildrenSubjectMsgs msgsToEvents
    updateAddChildrenSubjectEvents
  simp

end Redurx
